import Mathlib

/-!
# Verification of the treasure-hunt game (`src/game.js`)

Shallow embedding of the game data model and operations.  The JavaScript
source keeps module-level mutable variables (`treasures`, `treasureLocations`,
`foundTreasureCount`, `monsterLocation`, `playerLocation`); here they are
gathered into an explicit `GameState` record that the operations take and
return.  `Math.random()`-driven sampling is modelled by an explicit stream
`rnd : Nat → Fin g × Fin g` of raw samples (the value of
`Math.floor(Math.random() * GRID_SIZE)` for each axis), and the unbounded
sampling loop of `chooseUnoccupiedLocation` by an explicit fuel parameter;
termination of the loop becomes existence of a sufficient fuel.
`console.log` output is modelled by returning the list of emitted messages.
-/

namespace TreasureHunt

/-- A 2-D point, as built by `toPoint(x, y)` in the source.  JavaScript
numbers are integers throughout the game, so coordinates are `Int`. -/
@[ext]
structure Point where
  x : Int
  y : Int
deriving DecidableEq, Repr

/-- The `toString` method installed by `toPoint`: formats as `(x, y)`. -/
def pointToString (p : Point) : String :=
  "(" ++ toString p.x ++ ", " ++ toString p.y ++ ")"

/-- `GRID_SIZE` from the source. -/
def GRID_SIZE : Nat := 5

/-- The default treasure-name list from the source. -/
def defaultTreasures : List String :=
  ["gem", "ruby", "diamond", "coin", "emerald", "goblet"]

/-- `isEqualPoint(p1, p2)`.  In the source a point slot may be `undefined`
(a found treasure), so the arguments are `Option Point`: two absent points
are equal, an absent and a present point are not, and two present points
compare structurally. -/
def isEqualPoint (p1 p2 : Option Point) : Bool :=
  match p1, p2 with
  | none, none => true
  | none, some _ => false
  | some _, none => false
  | some q1, some q2 => q1.x == q2.x && q1.y == q2.y

/-- The indexed scanning loop inside `findPoint`: returns the index (offset
by the accumulator `i`) of the first entry equal to `pt`. -/
def findPointAux (pt : Option Point) : List (Option Point) → Nat → Option Nat
  | [], _ => none
  | a :: rest, i => if isEqualPoint a pt then some i else findPointAux pt rest (i + 1)

/-- `findPoint(list, pt)`: index of the first entry of `list` equal to `pt`
under `isEqualPoint`, `none` (JS `undefined`) when absent. -/
def findPoint (list : List (Option Point)) (pt : Option Point) : Option Nat :=
  findPointAux pt list 0

/-- The aggregate of the module-level game variables. -/
structure GameState where
  treasures : List String
  treasureLocations : List (Option Point)
  foundTreasureCount : Nat
  monsterLocation : Point
  playerLocation : Point
deriving Repr, DecidableEq

/-- `isAdjacent(p1, p2)` exactly as written in the source: false when the
`y`s differ by more than 1, false when the `x`s differ by more than 1,
true otherwise. -/
def isAdjacent (p1 p2 : Point) : Bool :=
  if p2.y < p1.y - 1 || p2.y > p1.y + 1 then false
  else if p2.x < p1.x - 1 || p2.x > p1.x + 1 then false
  else true

/-- `enterLocation(location)`: sets the player location, logs it, checks the
monster, then treasure pickup (win / remaining-count message), then the
adjacency growl on every non-terminal path.  Returns the updated state, the
continue flag and the logged messages in order. -/
def enterLocation (location : Point) (s : GameState) : GameState × Bool × List String :=
  let s1 := { s with playerLocation := location }
  let locMsg := "\nYou are now in location " ++ pointToString location
  if isEqualPoint (some s1.monsterLocation) (some s1.playerLocation) then
    (s1, false, [locMsg, "Oh no!!  You\u0027ve been eaten by a hungry monster!"])
  else
    let growl :=
      if isAdjacent s1.monsterLocation s1.playerLocation then
        ["You can hear a growling sound nearby!"]
      else []
    match findPoint s1.treasureLocations (some s1.playerLocation) with
    | some treasure =>
        let foundMsg := "You found the " ++ s1.treasures.getD treasure "undefined" ++ "!"
        let s2 := { s1 with
                    treasureLocations := s1.treasureLocations.set treasure none
                    foundTreasureCount := s1.foundTreasureCount + 1 }
        if s2.foundTreasureCount = s2.treasures.length then
          (s2, false,
            [locMsg, foundMsg,
             "You found all " ++ toString s2.foundTreasureCount ++ " treasures!  You win!!"])
        else
          let remaining : Int := (s2.treasures.length : Int) - (s2.foundTreasureCount : Int)
          (s2, true,
            [locMsg, foundMsg,
             "You have " ++ toString remaining ++ " more treasure" ++
               (if remaining > 1 then "s" else "") ++ " to find!"] ++ growl)
    | none => (s1, true, [locMsg] ++ growl)

/-- Character-level rendering of the JavaScript `toLowerCase()` call:
lowercase every character. -/
def strToLower (s : String) : String :=
  ⟨s.data.map Char.toLower⟩

/-- Character-level rendering of the JavaScript `trim()` call: drop leading
and trailing whitespace. -/
def strTrim (s : String) : String :=
  ⟨((s.data.dropWhile Char.isWhitespace).reverse.dropWhile Char.isWhitespace).reverse⟩

/-- The command normalization at the top of `processCommand`: a falsy (empty)
command is left alone, otherwise it is lowercased then trimmed
(`command.toLowerCase().trim()`). -/
def normalize (command : String) : String :=
  if command.isEmpty then command else strTrim (strToLower command)

/-- `processCommand(command)`: normalizes the input, handles empty input,
quit, the four movement commands with their boundary guards (delegating
in-bounds moves to `enterLocation`), blocked moves, and unrecognized input. -/
def processCommand (g : Nat) (command : String) (s : GameState) :
    GameState × Bool × List String :=
  let cmd := normalize command
  if cmd.isEmpty then (s, true, ["What??"])
  else if cmd = "q" then (s, false, [])
  else if cmd = "l" then
    if s.playerLocation.x > 1 then
      enterLocation ⟨s.playerLocation.x - 1, s.playerLocation.y⟩ s
    else (s, true, ["You can\u0027t move in that direction!"])
  else if cmd = "r" then
    if s.playerLocation.x < (g : Int) then
      enterLocation ⟨s.playerLocation.x + 1, s.playerLocation.y⟩ s
    else (s, true, ["You can\u0027t move in that direction!"])
  else if cmd = "u" then
    if s.playerLocation.y > 1 then
      enterLocation ⟨s.playerLocation.x, s.playerLocation.y - 1⟩ s
    else (s, true, ["You can\u0027t move in that direction!"])
  else if cmd = "d" then
    if s.playerLocation.y < (g : Int) then
      enterLocation ⟨s.playerLocation.x, s.playerLocation.y + 1⟩ s
    else (s, true, ["You can\u0027t move in that direction!"])
  else (s, true, ["I don\u0027t know what you mean"])

/-- One raw sample of the `chooseUnoccupiedLocation` body:
`toPoint(Math.floor(Math.random()*GRID_SIZE) + 1, ...)`.  The raw random
draws are already in `[0, g)`, hence `Fin g`. -/
def gridPoint (g : Nat) (v : Fin g × Fin g) : Point :=
  ⟨(v.1 : Int) + 1, (v.2 : Int) + 1⟩

/-- The do/while loop of `chooseUnoccupiedLocation`: starting at stream index
`i`, keep sampling until the sampled point is not in `usedLocations`.
Returns the point and the next unconsumed stream index; `none` when the
given fuel runs out before a free point is sampled. -/
def chooseLoop (g : Nat) (rnd : Nat → Fin g × Fin g) (usedLocations : List Point) :
    Nat → Nat → Option (Point × Nat)
  | _, 0 => none
  | i, Nat.succ fuel =>
      let location := gridPoint g (rnd i)
      if findPoint (usedLocations.map some) (some location) = none then
        some (location, i + 1)
      else chooseLoop g rnd usedLocations (i + 1) fuel

/-- `chooseUnoccupiedLocation(usedLocations)`: runs the sampling loop, then
pushes the chosen point onto `usedLocations`.  Returns the chosen point, the
grown list, and the next stream index. -/
def chooseUnoccupiedLocation (g : Nat) (rnd : Nat → Fin g × Fin g) (fuel i : Nat)
    (usedLocations : List Point) : Option (Point × List Point × Nat) :=
  match chooseLoop g rnd usedLocations i fuel with
  | some (location, j) => some (location, usedLocations ++ [location], j)
  | none => none

/-- The treasure-placement loop of `initGame`: `n` successive calls to
`chooseUnoccupiedLocation`, accumulating the chosen locations in order. -/
def initTreasures (g : Nat) (rnd : Nat → Fin g × Fin g) (fuel : Nat) :
    Nat → Nat → List Point → Option (List Point × List Point × Nat)
  | 0, i, used => some ([], used, i)
  | Nat.succ n, i, used =>
      match chooseUnoccupiedLocation g rnd fuel i used with
      | none => none
      | some (loc, used2, j) =>
          match initTreasures g rnd fuel n j used2 with
          | none => none
          | some (locs, used3, k) => some (loc :: locs, used3, k)

/-- `initGame()`: player at `(1, 1)`, monster and one location per treasure
name allocated by `chooseUnoccupiedLocation` against the shared
`usedLocations` list, `foundTreasureCount = 0`. -/
def initGame (g : Nat) (rnd : Nat → Fin g × Fin g) (fuel : Nat)
    (treasureNames : List String) : Option GameState :=
  let playerLocation := Point.mk 1 1
  let used := [playerLocation]
  match chooseUnoccupiedLocation g rnd fuel 0 used with
  | none => none
  | some (monsterLocation, used2, i) =>
      match initTreasures g rnd fuel treasureNames.length i used2 with
      | none => none
      | some (locs, _, _) =>
          some { treasures := treasureNames
                 treasureLocations := locs.map some
                 foundTreasureCount := 0
                 monsterLocation := monsterLocation
                 playerLocation := playerLocation }

/-- A point lies on the `g × g` board: both coordinates in `[1, g]`. -/
def inGrid (g : Nat) (p : Point) : Prop :=
  1 ≤ p.x ∧ p.x ≤ (g : Int) ∧ 1 ≤ p.y ∧ p.y ≤ (g : Int)

instance (g : Nat) (p : Point) : Decidable (inGrid g p) := by
  unfold inGrid; infer_instance

end TreasureHunt

namespace TreasureHunt

/-! ## Basic lemmas about point equality and `findPoint` -/

theorem isEqualPoint_some_some {p q : Point} :
    isEqualPoint (some p) (some q) = true ↔ p = q := by
  cases p; cases q
  simp [isEqualPoint, Point.ext_iff]

theorem isEqualPoint_eq_some_iff {a : Option Point} {q : Point} :
    isEqualPoint a (some q) = true ↔ a = some q := by
  cases a with
  | none => simp [isEqualPoint]
  | some p => simp [isEqualPoint_some_some]

theorem findPointAux_shift (pt : Option Point) (l : List (Option Point)) (i : Nat) :
    findPointAux pt l i = (findPointAux pt l 0).map (fun j => j + i) := by
  induction l generalizing i with
  | nil => simp [findPointAux]
  | cons a rest ih =>
    by_cases h : isEqualPoint a pt
    · simp [findPointAux, h]
    · simp only [findPointAux, h, if_false, Bool.false_eq_true]
      rw [ih (i + 1), ih 1, Option.map_map]
      congr 1
      funext j
      simp [Function.comp]
      omega

theorem findPoint_cons (a : Option Point) (rest : List (Option Point)) (pt : Option Point) :
    findPoint (a :: rest) pt =
      if isEqualPoint a pt then some 0
      else (findPoint rest pt).map (fun j => j + 1) := by
  by_cases h : isEqualPoint a pt
  · simp [findPoint, findPointAux, h]
  · simp only [findPoint, findPointAux, h, if_false, Bool.false_eq_true]
    exact findPointAux_shift pt rest 1

theorem findPoint_eq_none_iff {l : List (Option Point)} {pt : Option Point} :
    findPoint l pt = none ↔ ∀ a ∈ l, isEqualPoint a pt = false := by
  induction l with
  | nil => simp [findPoint, findPointAux]
  | cons a rest ih =>
    rw [findPoint_cons]
    by_cases h : isEqualPoint a pt
    · simp [h]
    · simp only [h, if_false, Bool.false_eq_true, Option.map_eq_none']
      rw [ih]
      simp only [List.mem_cons]
      constructor
      · intro hrest b hb
        rcases hb with hb | hb
        · subst hb; simpa using h
        · exact hrest b hb
      · intro hall b hb
        exact hall b (Or.inr hb)

theorem findPoint_eq_some {l : List (Option Point)} {pt : Option Point} {i : Nat}
    (h : findPoint l pt = some i) :
    i < l.length ∧ ∃ a, l[i]? = some a ∧ isEqualPoint a pt = true := by
  induction l generalizing i with
  | nil => simp [findPoint, findPointAux] at h
  | cons a rest ih =>
    rw [findPoint_cons] at h
    by_cases ha : isEqualPoint a pt
    · simp only [ha, if_true] at h
      cases h
      exact ⟨by simp, a, by simp, ha⟩
    · simp only [ha, if_false, Bool.false_eq_true, Option.map_eq_some'] at h
      obtain ⟨j, hj, hji⟩ := h
      obtain ⟨hlen, b, hb, hbeq⟩ := ih hj
      subst hji
      exact ⟨by simpa using hlen, b, by simpa using hb, hbeq⟩

theorem findPoint_some_entry {l : List (Option Point)} {p : Point} {i : Nat}
    (h : findPoint l (some p) = some i) : l[i]? = some (some p) := by
  obtain ⟨_, a, ha, haeq⟩ := findPoint_eq_some h
  rw [isEqualPoint_eq_some_iff] at haeq
  rw [ha, haeq]

theorem findPoint_map_some_eq_none_iff {l : List Point} {p : Point} :
    findPoint (l.map some) (some p) = none ↔ p ∉ l := by
  rw [findPoint_eq_none_iff]
  constructor
  · intro h hmem
    have hfalse := h (some p) (List.mem_map_of_mem some hmem)
    have htrue : isEqualPoint (some p) (some p) = true := isEqualPoint_some_some.mpr rfl
    rw [htrue] at hfalse
    exact absurd hfalse (by simp)
  · intro h a ha
    rcases List.mem_map.mp ha with ⟨q, hq, rfl⟩
    by_contra hcon
    have : q = p := isEqualPoint_some_some.mp (by simpa using hcon)
    exact h (this ▸ hq)

end TreasureHunt

namespace TreasureHunt

/-! ## Case analysis of `enterLocation` -/

theorem enterLocation_death {loc : Point} {s : GameState} (h : s.monsterLocation = loc) :
    enterLocation loc s =
      ({ s with playerLocation := loc }, false,
       ["\nYou are now in location " ++ pointToString loc,
        "Oh no!!  You\u0027ve been eaten by a hungry monster!"]) := by
  have hcond : isEqualPoint (some s.monsterLocation) (some loc) = true :=
    isEqualPoint_some_some.mpr h
  simp [enterLocation, hcond]

theorem enterLocation_no_treasure {loc : Point} {s : GameState}
    (hm : s.monsterLocation ≠ loc)
    (ht : findPoint s.treasureLocations (some loc) = none) :
    enterLocation loc s =
      ({ s with playerLocation := loc }, true,
       ["\nYou are now in location " ++ pointToString loc] ++
         (if isAdjacent s.monsterLocation loc then
            ["You can hear a growling sound nearby!"]
          else [])) := by
  have hcond : isEqualPoint (some s.monsterLocation) (some loc) = false := by
    rw [Bool.eq_false_iff]
    intro hc
    exact hm (isEqualPoint_some_some.mp hc)
  simp [enterLocation, hcond, ht]

theorem enterLocation_win {loc : Point} {s : GameState} {i : Nat}
    (hm : s.monsterLocation ≠ loc)
    (ht : findPoint s.treasureLocations (some loc) = some i)
    (hw : s.foundTreasureCount + 1 = s.treasures.length) :
    enterLocation loc s =
      ({ s with playerLocation := loc
                treasureLocations := s.treasureLocations.set i none
                foundTreasureCount := s.foundTreasureCount + 1 }, false,
       ["\nYou are now in location " ++ pointToString loc,
        "You found the " ++ s.treasures.getD i "undefined" ++ "!",
        "You found all " ++ toString (s.foundTreasureCount + 1) ++ " treasures!  You win!!"]) := by
  have hcond : isEqualPoint (some s.monsterLocation) (some loc) = false := by
    rw [Bool.eq_false_iff]
    intro hc
    exact hm (isEqualPoint_some_some.mp hc)
  simp [enterLocation, hcond, ht, hw]

theorem enterLocation_found_more {loc : Point} {s : GameState} {i : Nat}
    (hm : s.monsterLocation ≠ loc)
    (ht : findPoint s.treasureLocations (some loc) = some i)
    (hw : s.foundTreasureCount + 1 ≠ s.treasures.length) :
    enterLocation loc s =
      ({ s with playerLocation := loc
                treasureLocations := s.treasureLocations.set i none
                foundTreasureCount := s.foundTreasureCount + 1 }, true,
       ["\nYou are now in location " ++ pointToString loc,
        "You found the " ++ s.treasures.getD i "undefined" ++ "!",
        "You have " ++ toString ((s.treasures.length : Int) - ((s.foundTreasureCount : Int) + 1)) ++
          " more treasure" ++
          (if (s.treasures.length : Int) - ((s.foundTreasureCount : Int) + 1) > 1 then "s"
           else "") ++ " to find!"] ++
         (if isAdjacent s.monsterLocation loc then
            ["You can hear a growling sound nearby!"]
          else [])) := by
  have hcond : isEqualPoint (some s.monsterLocation) (some loc) = false := by
    rw [Bool.eq_false_iff]
    intro hc
    exact hm (isEqualPoint_some_some.mp hc)
  simp [enterLocation, hcond, ht, hw]

end TreasureHunt

namespace TreasureHunt

theorem isAdjacent_eq_true_iff (p1 p2 : Point) :
    isAdjacent p1 p2 = true ↔ |p1.x - p2.x| ≤ 1 ∧ |p1.y - p2.y| ≤ 1 := by
  simp only [isAdjacent, Bool.or_eq_true, decide_eq_true_eq]
  rw [abs_le, abs_le]
  split_ifs with h1 h2
  · simp only [Bool.false_eq_true, false_iff]
    omega
  · simp only [Bool.false_eq_true, false_iff]
    omega
  · simp only [true_iff]
    push_neg at h1 h2
    omega

/-- C8: `isAdjacent p1 p2` is true exactly when both coordinate differences
have absolute value at most 1; consequently it is symmetric and reflexive. -/
theorem isAdjacent_spec (p1 p2 p : Point) :
    (isAdjacent p1 p2 = true ↔ |p1.x - p2.x| ≤ 1 ∧ |p1.y - p2.y| ≤ 1) ∧
    isAdjacent p1 p2 = isAdjacent p2 p1 ∧
    isAdjacent p p = true := by
  refine ⟨isAdjacent_eq_true_iff p1 p2, ?_, ?_⟩
  · cases h1 : isAdjacent p1 p2 <;> cases h2 : isAdjacent p2 p1 <;> try rfl
    · exfalso
      have h3 := (isAdjacent_eq_true_iff p2 p1).mp h2
      rw [abs_sub_comm p2.x p1.x, abs_sub_comm p2.y p1.y] at h3
      have h4 := (isAdjacent_eq_true_iff p1 p2).mpr h3
      rw [h1] at h4
      cases h4
    · exfalso
      have h3 := (isAdjacent_eq_true_iff p1 p2).mp h1
      rw [abs_sub_comm p1.x p2.x, abs_sub_comm p1.y p2.y] at h3
      have h4 := (isAdjacent_eq_true_iff p2 p1).mpr h3
      rw [h2] at h4
      cases h4
  · rw [isAdjacent_eq_true_iff]
    simp

/-- A state used by several witnesses: the monster sits at `(2, 1)` together
with a still-present treasure. -/
def deathState : GameState :=
  { treasures := ["gem"]
    treasureLocations := [some ⟨2, 1⟩]
    foundTreasureCount := 0
    monsterLocation := ⟨2, 1⟩
    playerLocation := ⟨1, 1⟩ }

/-- C1: entering the monster location yields the death message and
`continue = false`, and treasure bookkeeping is untouched, even when a
still-present treasure occupies that location. -/
theorem enterLocation_death_precedence (s : GameState) (loc : Point)
    (h : loc = s.monsterLocation) :
    (enterLocation loc s).2.1 = false ∧
    "Oh no!!  You\u0027ve been eaten by a hungry monster!" ∈ (enterLocation loc s).2.2 ∧
    (enterLocation loc s).1.treasureLocations = s.treasureLocations ∧
    (enterLocation loc s).1.foundTreasureCount = s.foundTreasureCount := by
  rw [enterLocation_death h.symm]
  simp

theorem enterLocation_death_precedence_witness :
    (Point.mk 2 1 = deathState.monsterLocation) ∧
    ((enterLocation ⟨2, 1⟩ deathState).2.1 = false ∧
     "Oh no!!  You\u0027ve been eaten by a hungry monster!" ∈
       (enterLocation ⟨2, 1⟩ deathState).2.2 ∧
     (enterLocation ⟨2, 1⟩ deathState).1.treasureLocations = deathState.treasureLocations ∧
     (enterLocation ⟨2, 1⟩ deathState).1.foundTreasureCount = deathState.foundTreasureCount) :=
  ⟨rfl, enterLocation_death_precedence deathState ⟨2, 1⟩ rfl⟩

/-- A state one treasure away from winning, with that treasure at `(1, 2)`. -/
def winState : GameState :=
  { treasures := ["gem", "ruby"]
    treasureLocations := [none, some ⟨1, 2⟩]
    foundTreasureCount := 1
    monsterLocation := ⟨3, 3⟩
    playerLocation := ⟨1, 1⟩ }

/-- C2: `enterLocation` returns `continue = false` exactly when the new
location is the monster location, or the move collects a still-present
treasure and brings the found count up to the number of treasures; in the
winning case the win message names the total found. -/
theorem enterLocation_terminal_iff (s : GameState) (loc : Point) :
    ((enterLocation loc s).2.1 = false ↔
      loc = s.monsterLocation ∨
        (loc ≠ s.monsterLocation ∧ (findPoint s.treasureLocations (some loc)).isSome = true ∧
          s.foundTreasureCount + 1 = s.treasures.length)) ∧
    ((loc ≠ s.monsterLocation ∧ (findPoint s.treasureLocations (some loc)).isSome = true ∧
        s.foundTreasureCount + 1 = s.treasures.length) →
      ("You found all " ++ toString (s.foundTreasureCount + 1) ++
        " treasures!  You win!!") ∈ (enterLocation loc s).2.2) := by
  by_cases hm : s.monsterLocation = loc
  · rw [enterLocation_death hm]
    constructor
    · simp [hm.symm]
    · rintro ⟨h1, -⟩
      exact absurd hm.symm h1
  · have hm2 : loc ≠ s.monsterLocation := fun h => hm h.symm
    cases hfp : findPoint s.treasureLocations (some loc) with
    | none =>
      rw [enterLocation_no_treasure hm hfp]
      constructor
      · simp [hm2]
      · rintro ⟨-, h2, -⟩
        simp at h2
    | some i =>
      by_cases hw : s.foundTreasureCount + 1 = s.treasures.length
      · rw [enterLocation_win hm hfp hw]
        constructor
        · simp [hm2, hw]
        · intro _
          simp
      · rw [enterLocation_found_more hm hfp hw]
        constructor
        · simp [hm2, hw]
        · rintro ⟨-, -, h3⟩
          exact absurd h3 hw

theorem enterLocation_terminal_iff_witness :
    ((enterLocation ⟨1, 2⟩ winState).2.1 = false ↔
      Point.mk 1 2 = winState.monsterLocation ∨
        (Point.mk 1 2 ≠ winState.monsterLocation ∧
          (findPoint winState.treasureLocations (some ⟨1, 2⟩)).isSome = true ∧
          winState.foundTreasureCount + 1 = winState.treasures.length)) ∧
    ((Point.mk 1 2 ≠ winState.monsterLocation ∧
        (findPoint winState.treasureLocations (some ⟨1, 2⟩)).isSome = true ∧
        winState.foundTreasureCount + 1 = winState.treasures.length) →
      ("You found all " ++ toString (winState.foundTreasureCount + 1) ++
        " treasures!  You win!!") ∈ (enterLocation ⟨1, 2⟩ winState).2.2) :=
  enterLocation_terminal_iff winState ⟨1, 2⟩

/-- C6: the found count never decreases across `enterLocation`; it increases
by exactly 1 when the new location matches a still-present treasure location
(and the move is not onto the monster), and is unchanged when no
still-present treasure matches — in particular a location whose treasure was
already found (its slot now absent) never triggers a second increment. -/
theorem enterLocation_foundCount_monotone (s : GameState) (loc : Point) :
    s.foundTreasureCount ≤ (enterLocation loc s).1.foundTreasureCount ∧
    (loc ≠ s.monsterLocation → (findPoint s.treasureLocations (some loc)).isSome = true →
      (enterLocation loc s).1.foundTreasureCount = s.foundTreasureCount + 1) ∧
    (loc ≠ s.monsterLocation → findPoint s.treasureLocations (some loc) = none →
      (enterLocation loc s).1.foundTreasureCount = s.foundTreasureCount) ∧
    (loc = s.monsterLocation →
      (enterLocation loc s).1.foundTreasureCount = s.foundTreasureCount) := by
  by_cases hm : s.monsterLocation = loc
  · rw [enterLocation_death hm]
    refine ⟨le_refl _, ?_, ?_, fun _ => rfl⟩
    · intro h1 _
      exact absurd hm.symm h1
    · intro h1 _
      exact absurd hm.symm h1
  · have hm2 : loc ≠ s.monsterLocation := fun h => hm h.symm
    cases hfp : findPoint s.treasureLocations (some loc) with
    | none =>
      rw [enterLocation_no_treasure hm hfp]
      refine ⟨le_refl _, ?_, fun _ _ => rfl, fun h => absurd h hm2⟩
      intro _ h2
      simp at h2
    | some i =>
      by_cases hw : s.foundTreasureCount + 1 = s.treasures.length
      · rw [enterLocation_win hm hfp hw]
        refine ⟨Nat.le_succ _, fun _ _ => rfl, ?_, fun h => absurd h hm2⟩
        intro _ h2
        cases h2
      · rw [enterLocation_found_more hm hfp hw]
        refine ⟨Nat.le_succ _, fun _ _ => rfl, ?_, fun h => absurd h hm2⟩
        intro _ h2
        cases h2

theorem enterLocation_foundCount_monotone_witness :
    (Point.mk 1 2 ≠ winState.monsterLocation ∧
      (findPoint winState.treasureLocations (some ⟨1, 2⟩)).isSome = true) ∧
    (enterLocation ⟨1, 2⟩ winState).1.foundTreasureCount = winState.foundTreasureCount + 1 :=
  ⟨⟨by decide, by decide⟩,
   (enterLocation_foundCount_monotone winState ⟨1, 2⟩).2.1 (by decide) (by decide)⟩

/-- C7: `enterLocation` mutates only the player position and, on treasure
discovery, the single matched treasure slot and the found count; the monster
location, the treasure-name list, and every other treasure slot are
unchanged.  (The grid size is a constant outside the state and is not
touched at all.) -/
theorem enterLocation_frame (s : GameState) (loc : Point) :
    (enterLocation loc s).1.monsterLocation = s.monsterLocation ∧
    (enterLocation loc s).1.treasures = s.treasures ∧
    (enterLocation loc s).1.playerLocation = loc ∧
    (loc = s.monsterLocation →
      (enterLocation loc s).1.treasureLocations = s.treasureLocations ∧
      (enterLocation loc s).1.foundTreasureCount = s.foundTreasureCount) ∧
    (findPoint s.treasureLocations (some loc) = none →
      (enterLocation loc s).1.treasureLocations = s.treasureLocations ∧
      (enterLocation loc s).1.foundTreasureCount = s.foundTreasureCount) ∧
    (∀ i, loc ≠ s.monsterLocation → findPoint s.treasureLocations (some loc) = some i →
      (enterLocation loc s).1.treasureLocations = s.treasureLocations.set i none ∧
      (enterLocation loc s).1.foundTreasureCount = s.foundTreasureCount + 1 ∧
      ∀ j, j ≠ i →
        (enterLocation loc s).1.treasureLocations[j]? = s.treasureLocations[j]?) := by
  by_cases hm : s.monsterLocation = loc
  · rw [enterLocation_death hm]
    refine ⟨rfl, rfl, rfl, fun _ => ⟨rfl, rfl⟩, fun _ => ⟨rfl, rfl⟩, ?_⟩
    intro i h1 _
    exact absurd hm.symm h1
  · have hm2 : loc ≠ s.monsterLocation := fun h => hm h.symm
    cases hfp : findPoint s.treasureLocations (some loc) with
    | none =>
      rw [enterLocation_no_treasure hm hfp]
      refine ⟨rfl, rfl, rfl, fun h => absurd h hm2, fun _ => ⟨rfl, rfl⟩, ?_⟩
      intro i _ h2
      cases h2
    | some i =>
      by_cases hw : s.foundTreasureCount + 1 = s.treasures.length
      · rw [enterLocation_win hm hfp hw]
        refine ⟨rfl, rfl, rfl, fun h => absurd h hm2, ?_, ?_⟩
        · intro h2
          cases h2
        · intro i2 _ h2
          cases h2
          refine ⟨rfl, rfl, ?_⟩
          intro j hj
          exact List.getElem?_set_ne (fun h => hj h.symm)
      · rw [enterLocation_found_more hm hfp hw]
        refine ⟨rfl, rfl, rfl, fun h => absurd h hm2, ?_, ?_⟩
        · intro h2
          cases h2
        · intro i2 _ h2
          cases h2
          refine ⟨rfl, rfl, ?_⟩
          intro j hj
          exact List.getElem?_set_ne (fun h => hj h.symm)

theorem enterLocation_frame_witness :
    (enterLocation ⟨1, 2⟩ winState).1.monsterLocation = winState.monsterLocation ∧
    (enterLocation ⟨1, 2⟩ winState).1.treasures = winState.treasures ∧
    (enterLocation ⟨1, 2⟩ winState).1.treasureLocations =
      winState.treasureLocations.set 1 none ∧
    (enterLocation ⟨1, 2⟩ winState).1.treasureLocations[0]? =
      winState.treasureLocations[0]? :=
  ⟨(enterLocation_frame winState ⟨1, 2⟩).1,
   (enterLocation_frame winState ⟨1, 2⟩).2.1,
   ((enterLocation_frame winState ⟨1, 2⟩).2.2.2.2.2 1 (by decide) (by decide)).1,
   ((enterLocation_frame winState ⟨1, 2⟩).2.2.2.2.2 1 (by decide) (by decide)).2.2 0
     (by decide)⟩

end TreasureHunt

namespace TreasureHunt

theorem enterLocation_playerLocation (loc : Point) (s : GameState) :
    (enterLocation loc s).1.playerLocation = loc := by
  by_cases hm : s.monsterLocation = loc
  · rw [enterLocation_death hm]
  · cases hfp : findPoint s.treasureLocations (some loc) with
    | none => rw [enterLocation_no_treasure hm hfp]
    | some i =>
      by_cases hw : s.foundTreasureCount + 1 = s.treasures.length
      · rw [enterLocation_win hm hfp hw]
      · rw [enterLocation_found_more hm hfp hw]

/-- C4: empty or whitespace-only input, unrecognized input, and moves blocked
by the grid boundary each produce exactly the corresponding informational
message, return `continue = true`, and leave the whole game state unchanged
(the functions are total, so no exception can escape). -/
theorem processCommand_rejections (g : Nat) (s : GameState) (c : String) :
    (normalize c = "" →
      processCommand g c s = (s, true, ["What??"])) ∧
    (normalize c ≠ "" → normalize c ≠ "q" → normalize c ≠ "l" → normalize c ≠ "r" →
      normalize c ≠ "u" → normalize c ≠ "d" →
      processCommand g c s = (s, true, ["I don\u0027t know what you mean"])) ∧
    (normalize c = "l" → s.playerLocation.x ≤ 1 →
      processCommand g c s = (s, true, ["You can\u0027t move in that direction!"])) ∧
    (normalize c = "r" → (g : Int) ≤ s.playerLocation.x →
      processCommand g c s = (s, true, ["You can\u0027t move in that direction!"])) ∧
    (normalize c = "u" → s.playerLocation.y ≤ 1 →
      processCommand g c s = (s, true, ["You can\u0027t move in that direction!"])) ∧
    (normalize c = "d" → (g : Int) ≤ s.playerLocation.y →
      processCommand g c s = (s, true, ["You can\u0027t move in that direction!"])) := by
  refine ⟨?_, ?_, ?_, ?_, ?_, ?_⟩
  · intro h
    simp [processCommand, h, show ("" : String).isEmpty = true from rfl]
  · intro h0 h1 h2 h3 h4 h5
    have he : (normalize c).isEmpty = false := by
      cases hn : (normalize c).isEmpty
      · rfl
      · exact absurd ((String.isEmpty_iff _).mp hn) h0
    simp [processCommand, he, h1, h2, h3, h4, h5]
  · intro h hb
    have hb2 : ¬(s.playerLocation.x > 1) := by omega
    simp [processCommand, h, hb2, show ("l" : String).isEmpty = false from rfl]
  · intro h hb
    have hb2 : ¬(s.playerLocation.x < (g : Int)) := by omega
    simp [processCommand, h, hb2, show ("r" : String).isEmpty = false from rfl]
  · intro h hb
    have hb2 : ¬(s.playerLocation.y > 1) := by omega
    simp [processCommand, h, hb2, show ("u" : String).isEmpty = false from rfl]
  · intro h hb
    have hb2 : ¬(s.playerLocation.y < (g : Int)) := by omega
    simp [processCommand, h, hb2, show ("d" : String).isEmpty = false from rfl]

theorem processCommand_rejections_witness :
    processCommand 5 "" deathState = (deathState, true, ["What??"]) ∧
    processCommand 5 "xyz" deathState =
      (deathState, true, ["I don\u0027t know what you mean"]) ∧
    processCommand 5 " L " deathState =
      (deathState, true, ["You can\u0027t move in that direction!"]) :=
  ⟨(processCommand_rejections 5 deathState "").1 (by decide),
   (processCommand_rejections 5 deathState "xyz").2.1 (by decide) (by decide) (by decide)
     (by decide) (by decide) (by decide),
   (processCommand_rejections 5 deathState " L ").2.2.1 (by decide) (by decide)⟩

/-- C10: whenever the player position is on the `g × g` board, it is still on
the board after `processCommand`, whatever the input string; the bounds come
from the direction guards alone, since `enterLocation` itself assigns any
location it is given without validation. -/
theorem processCommand_preserves_bounds (g : Nat) (s : GameState) (c : String)
    (h : inGrid g s.playerLocation) :
    inGrid g (processCommand g c s).1.playerLocation ∧
    ∀ loc, (enterLocation loc s).1.playerLocation = loc := by
  refine ⟨?_, fun loc => enterLocation_playerLocation loc s⟩
  simp only [processCommand]
  split_ifs with he hq hl hlx hr hrx hu huy hd hdy
  · exact h
  · exact h
  · rw [enterLocation_playerLocation]
    unfold inGrid at h ⊢
    dsimp only
    omega
  · exact h
  · rw [enterLocation_playerLocation]
    unfold inGrid at h ⊢
    dsimp only
    omega
  · exact h
  · rw [enterLocation_playerLocation]
    unfold inGrid at h ⊢
    dsimp only
    omega
  · exact h
  · rw [enterLocation_playerLocation]
    unfold inGrid at h ⊢
    dsimp only
    omega
  · exact h
  · exact h

theorem processCommand_preserves_bounds_witness :
    inGrid 5 deathState.playerLocation ∧
    inGrid 5 (processCommand 5 "r" deathState).1.playerLocation ∧
    (enterLocation ⟨0, 0⟩ deathState).1.playerLocation = ⟨0, 0⟩ :=
  ⟨by decide,
   (processCommand_preserves_bounds 5 deathState "r" (by decide)).1,
   (processCommand_preserves_bounds 5 deathState "r" (by decide)).2 ⟨0, 0⟩⟩

end TreasureHunt

namespace TreasureHunt

theorem isAdjacent_spec_witness :
    (isAdjacent ⟨1, 1⟩ ⟨2, 2⟩ = true ↔
      |(Point.mk 1 1).x - (Point.mk 2 2).x| ≤ 1 ∧
      |(Point.mk 1 1).y - (Point.mk 2 2).y| ≤ 1) ∧
    isAdjacent ⟨1, 1⟩ ⟨2, 2⟩ = isAdjacent ⟨2, 2⟩ ⟨1, 1⟩ ∧
    isAdjacent ⟨3, 3⟩ ⟨3, 3⟩ = true :=
  isAdjacent_spec ⟨1, 1⟩ ⟨2, 2⟩ ⟨3, 3⟩

/-! ## The found-count invariant (C5) -/

/-- The spec treasure-entry invariant rendered on the two parallel arrays:
they are in sync, and the found count equals the number of absent slots and
is at most the number of treasures. -/
def stateWF (s : GameState) : Prop :=
  s.treasureLocations.length = s.treasures.length ∧
  s.foundTreasureCount = s.treasureLocations.countP (fun e => e.isNone) ∧
  s.foundTreasureCount ≤ s.treasures.length

instance (s : GameState) : Decidable (stateWF s) := by
  unfold stateWF; infer_instance

theorem countP_set_none {l : List (Option Point)} {i : Nat} {p : Point}
    (h : l[i]? = some (some p)) :
    (l.set i none).countP (fun e => e.isNone) = l.countP (fun e => e.isNone) + 1 := by
  induction l generalizing i with
  | nil => simp at h
  | cons a t ih =>
    cases i with
    | zero =>
      simp only [List.getElem?_cons_zero, Option.some.injEq] at h
      subst h
      simp [List.countP_cons]
    | succ n =>
      simp only [List.getElem?_cons_succ] at h
      simp only [List.set_cons_succ, List.countP_cons, ih h]
      omega

theorem countP_isNone_map_some (l : List Point) :
    (l.map some).countP (fun e => e.isNone) = 0 := by
  induction l with
  | nil => rfl
  | cons a t ih => simp [List.countP_cons, ih]

theorem initTreasures_length {g : Nat} {rnd : Nat → Fin g × Fin g} {fuel : Nat} :
    ∀ {n i used locs used2 k},
      initTreasures g rnd fuel n i used = some (locs, used2, k) → locs.length = n := by
  intro n
  induction n with
  | zero =>
    intro i used locs used2 k h
    simp only [initTreasures, Option.some.injEq, Prod.mk.injEq] at h
    obtain ⟨h1, -, -⟩ := h
    rw [← h1]
    rfl
  | succ n ih =>
    intro i used locs used2 k h
    simp only [initTreasures] at h
    cases hch : chooseUnoccupiedLocation g rnd fuel i used with
    | none => rw [hch] at h; cases h
    | some trip =>
      obtain ⟨p, u2, j⟩ := trip
      rw [hch] at h
      dsimp only at h
      cases hit : initTreasures g rnd fuel n j u2 with
      | none => rw [hit] at h; cases h
      | some trip2 =>
        obtain ⟨locs2, u3, k2⟩ := trip2
        rw [hit] at h
        dsimp only at h
        simp only [Option.some.injEq, Prod.mk.injEq] at h
        obtain ⟨h1, -, -⟩ := h
        rw [← h1]
        simp [ih hit]

theorem stateWF_enterLocation (loc : Point) (s : GameState) (h : stateWF s) :
    stateWF (enterLocation loc s).1 := by
  obtain ⟨hlen, hcount, hle⟩ := h
  by_cases hm : s.monsterLocation = loc
  · rw [enterLocation_death hm]
    exact ⟨hlen, hcount, hle⟩
  · cases hfp : findPoint s.treasureLocations (some loc) with
    | none =>
      rw [enterLocation_no_treasure hm hfp]
      exact ⟨hlen, hcount, hle⟩
    | some i =>
      have hentry := findPoint_some_entry hfp
      have hset := countP_set_none hentry
      have hsetlen : (s.treasureLocations.set i none).length = s.treasureLocations.length :=
        List.length_set _ _ _
      have hcountle : (s.treasureLocations.set i none).countP (fun e => e.isNone) ≤
          s.treasureLocations.length := by
        calc (s.treasureLocations.set i none).countP (fun e => e.isNone) ≤
            (s.treasureLocations.set i none).length := List.countP_le_length _
          _ = s.treasureLocations.length := hsetlen
      by_cases hw : s.foundTreasureCount + 1 = s.treasures.length
      · rw [enterLocation_win hm hfp hw]
        refine ⟨by simpa using hlen, by simp [hset, hcount], ?_⟩
        simp only
        omega
      · rw [enterLocation_found_more hm hfp hw]
        refine ⟨by simpa using hlen, by simp [hset, hcount], ?_⟩
        simp only
        omega

theorem stateWF_initGame (g : Nat) (rnd : Nat → Fin g × Fin g) (fuel : Nat)
    (names : List String) (st : GameState) (h : initGame g rnd fuel names = some st) :
    stateWF st := by
  simp only [initGame] at h
  cases hch : chooseUnoccupiedLocation g rnd fuel 0 [⟨1, 1⟩] with
  | none => rw [hch] at h; cases h
  | some trip =>
    obtain ⟨mon, used2, j⟩ := trip
    rw [hch] at h
    dsimp only at h
    cases hit : initTreasures g rnd fuel names.length j used2 with
    | none => rw [hit] at h; cases h
    | some trip2 =>
      obtain ⟨locs, used3, k⟩ := trip2
      rw [hit] at h
      dsimp only at h
      cases h
      refine ⟨by simp [initTreasures_length hit], ?_, by simp⟩
      simp only
      rw [countP_isNone_map_some]

theorem stateWF_processCommand (g : Nat) (c : String) (s : GameState) (h : stateWF s) :
    stateWF (processCommand g c s).1 := by
  simp only [processCommand]
  split_ifs with he hq hl hlx hr hrx hu huy hd hdy
  · exact h
  · exact h
  · exact stateWF_enterLocation _ s h
  · exact h
  · exact stateWF_enterLocation _ s h
  · exact h
  · exact stateWF_enterLocation _ s h
  · exact h
  · exact stateWF_enterLocation _ s h
  · exact h
  · exact h

/-- C5: the predicate "the found count equals the number of treasure entries
whose location is absent, and is between 0 and the number of treasures"
holds after `initGame` and is preserved by every call to `enterLocation` and
`processCommand` (rendered on the two parallel arrays of the source, which
realize the spec entry list when kept in sync). -/
theorem foundCount_invariant (g : Nat) (rnd : Nat → Fin g × Fin g) (fuel : Nat)
    (names : List String) (st : GameState) (s : GameState) (loc : Point) (c : String) :
    (initGame g rnd fuel names = some st → stateWF st) ∧
    (stateWF s → stateWF (enterLocation loc s).1) ∧
    (stateWF s → stateWF (processCommand g c s).1) :=
  ⟨stateWF_initGame g rnd fuel names st,
   stateWF_enterLocation loc s,
   stateWF_processCommand g c s⟩

/-- The state produced by a tiny concrete `initGame` run, for witnesses. -/
def initState0 : GameState :=
  { treasures := []
    treasureLocations := []
    foundTreasureCount := 0
    monsterLocation := ⟨2, 2⟩
    playerLocation := ⟨1, 1⟩ }

theorem foundCount_invariant_witness :
    (initGame 2 (fun _ => (1, 1)) 1 [] = some initState0 ∧ stateWF winState) ∧
    (stateWF initState0 ∧
     stateWF (enterLocation ⟨1, 2⟩ winState).1 ∧
     stateWF (processCommand 2 "d" winState).1) :=
  ⟨⟨by decide, by decide⟩,
   ⟨(foundCount_invariant 2 (fun _ => (1, 1)) 1 [] initState0 winState ⟨1, 2⟩ "d").1
      (by decide),
    (foundCount_invariant 2 (fun _ => (1, 1)) 1 [] initState0 winState ⟨1, 2⟩ "d").2.1
      (by decide),
    (foundCount_invariant 2 (fun _ => (1, 1)) 1 [] initState0 winState ⟨1, 2⟩ "d").2.2
      (by decide)⟩⟩

end TreasureHunt

namespace TreasureHunt

/-! ## The location allocator (C9, C3) -/

theorem gridPoint_inGrid (g : Nat) (v : Fin g × Fin g) : inGrid g (gridPoint g v) := by
  obtain ⟨⟨a, ha⟩, ⟨b, hb⟩⟩ := v
  unfold inGrid gridPoint
  dsimp only
  omega

theorem gridPoint_injective (g : Nat) : Function.Injective (gridPoint g) := by
  rintro ⟨a, b⟩ ⟨c, d⟩ h
  simp only [gridPoint, Point.ext_iff] at h
  obtain ⟨h1, h2⟩ := h
  have ha : a = c := Fin.ext (by omega)
  have hb : b = d := Fin.ext (by omega)
  rw [ha, hb]

theorem inGrid_exists_gridPoint {g : Nat} {p : Point} (h : inGrid g p) :
    ∃ v : Fin g × Fin g, gridPoint g v = p := by
  obtain ⟨h1, h2, h3, h4⟩ := h
  refine ⟨(⟨(p.x - 1).toNat, by omega⟩, ⟨(p.y - 1).toNat, by omega⟩), ?_⟩
  unfold gridPoint
  ext <;> dsimp only <;> omega

theorem chooseLoop_mono {g : Nat} {rnd : Nat → Fin g × Fin g} {used : List Point}
    {i fuel : Nat} {r : Point × Nat} (h : chooseLoop g rnd used i fuel = some r) :
    ∀ fuel2, fuel ≤ fuel2 → chooseLoop g rnd used i fuel2 = some r := by
  induction fuel generalizing i with
  | zero => cases h
  | succ f ih =>
    intro fuel2 hf
    cases fuel2 with
    | zero => omega
    | succ f2 =>
      simp only [chooseLoop] at h ⊢
      by_cases hc : findPoint (used.map some) (some (gridPoint g (rnd i))) = none
      · rw [if_pos hc] at h ⊢
        exact h
      · rw [if_neg hc] at h ⊢
        exact ih h f2 (by omega)

theorem chooseLoop_sound {g : Nat} {rnd : Nat → Fin g × Fin g} {used : List Point}
    {i fuel : Nat} {p : Point} {j : Nat}
    (h : chooseLoop g rnd used i fuel = some (p, j)) :
    findPoint (used.map some) (some p) = none ∧ ∃ m, i ≤ m ∧ p = gridPoint g (rnd m) := by
  induction fuel generalizing i with
  | zero => cases h
  | succ f ih =>
    simp only [chooseLoop] at h
    by_cases hc : findPoint (used.map some) (some (gridPoint g (rnd i))) = none
    · rw [if_pos hc] at h
      simp only [Option.some.injEq, Prod.mk.injEq] at h
      obtain ⟨h1, -⟩ := h
      subst h1
      exact ⟨hc, i, le_refl _, rfl⟩
    · rw [if_neg hc] at h
      obtain ⟨hfree, m, hm, hp⟩ := ih h
      exact ⟨hfree, m, by omega, hp⟩

theorem chooseLoop_complete {g : Nat} {rnd : Nat → Fin g × Fin g} {used : List Point} :
    ∀ fuel i k, k < fuel →
      findPoint (used.map some) (some (gridPoint g (rnd (i + k)))) = none →
      ∃ r, chooseLoop g rnd used i fuel = some r := by
  intro fuel
  induction fuel with
  | zero =>
    intro i k hk
    omega
  | succ f ih =>
    intro i k hk hfree
    by_cases hc : findPoint (used.map some) (some (gridPoint g (rnd i))) = none
    · exact ⟨(gridPoint g (rnd i), i + 1), by simp only [chooseLoop]; rw [if_pos hc]⟩
    · have hk0 : k ≠ 0 := by
        intro h0
        rw [h0, Nat.add_zero] at hfree
        exact hc hfree
      have hfree2 : findPoint (used.map some)
          (some (gridPoint g (rnd ((i + 1) + (k - 1))))) = none := by
        have : (i + 1) + (k - 1) = i + k := by omega
        rw [this]
        exact hfree
      obtain ⟨r, hr⟩ := ih (i + 1) (k - 1) (by omega) hfree2
      exact ⟨r, by simp only [chooseLoop]; rw [if_neg hc]; exact hr⟩

/-- A sampling stream is fair when every raw sample value keeps recurring:
past any index, every value appears again.  A uniform random source has this
property with probability 1. -/
def FairStream (g : Nat) (rnd : Nat → Fin g × Fin g) : Prop :=
  ∀ v : Fin g × Fin g, ∀ m : Nat, ∃ n, m ≤ n ∧ rnd n = v

theorem chooseUnoccupiedLocation_step {g : Nat} {rnd : Nat → Fin g × Fin g}
    (hfair : FairStream g rnd) (i : Nat) {used : List Point}
    (hfree : ∃ p, inGrid g p ∧ p ∉ used) :
    ∃ fuel p used2 j,
      chooseUnoccupiedLocation g rnd fuel i used = some (p, used2, j) ∧
      inGrid g p ∧ p ∉ used ∧ used2 = used ++ [p] := by
  obtain ⟨p0, hp0g, hp0u⟩ := hfree
  obtain ⟨v, hv⟩ := inGrid_exists_gridPoint hp0g
  obtain ⟨n, hni, hn⟩ := hfair v i
  have hfp0 : findPoint (used.map some) (some (gridPoint g (rnd (i + (n - i))))) = none := by
    have : i + (n - i) = n := by omega
    rw [this, hn, hv]
    exact findPoint_map_some_eq_none_iff.mpr hp0u
  obtain ⟨⟨p, j⟩, hloop⟩ := chooseLoop_complete (n - i + 1) i (n - i) (by omega) hfp0
  obtain ⟨hpfree, m, -, hpm⟩ := chooseLoop_sound hloop
  refine ⟨n - i + 1, p, used ++ [p], j, ?_, ?_, ?_, rfl⟩
  · simp only [chooseUnoccupiedLocation]
    rw [hloop]
  · rw [hpm]
    exact gridPoint_inGrid g (rnd m)
  · exact findPoint_map_some_eq_none_iff.mp hpfree

/-- C9: whenever `usedLocations` does not exhaust the board and the sampling
stream is fair, the sampling loop of `chooseUnoccupiedLocation` terminates
(some finite fuel suffices), and the returned point is on the board, was not
in `usedLocations`, and has been appended to it. -/
theorem chooseUnoccupiedLocation_spec (g : Nat) (rnd : Nat → Fin g × Fin g)
    (used : List Point) (hfair : FairStream g rnd)
    (hfree : ∃ p, inGrid g p ∧ p ∉ used) :
    ∃ fuel p used2 j,
      chooseUnoccupiedLocation g rnd fuel 0 used = some (p, used2, j) ∧
      inGrid g p ∧ p ∉ used ∧ used2 = used ++ [p] :=
  chooseUnoccupiedLocation_step hfair 0 hfree

/-- A concrete fair stream on the `2 × 2` board, cycling through the four
raw sample values. -/
def cyc2 : Nat → Fin 2 × Fin 2 := fun n =>
  if n % 4 = 0 then (0, 0)
  else if n % 4 = 1 then (1, 0)
  else if n % 4 = 2 then (0, 1)
  else (1, 1)

theorem cyc2_fair : FairStream 2 cyc2 := by
  rintro ⟨⟨a, ha⟩, ⟨b, hb⟩⟩ m
  refine ⟨4 * (m + 1) + (a + 2 * b), by omega, ?_⟩
  have h4 : (4 * (m + 1) + (a + 2 * b)) % 4 = a + 2 * b := by omega
  unfold cyc2
  rw [h4]
  interval_cases a <;> interval_cases b <;> simp

theorem chooseUnoccupiedLocation_spec_witness :
    ∃ fuel p used2 j,
      chooseUnoccupiedLocation 2 cyc2 fuel 0 [⟨1, 1⟩] = some (p, used2, j) ∧
      inGrid 2 p ∧ p ∉ [(⟨1, 1⟩ : Point)] ∧ used2 = [(⟨1, 1⟩ : Point)] ++ [p] :=
  chooseUnoccupiedLocation_spec 2 cyc2 [⟨1, 1⟩] cyc2_fair ⟨⟨2, 2⟩, by decide, by decide⟩

end TreasureHunt

namespace TreasureHunt

/-! ## Game initialization (C3) -/

theorem exists_unused (g : Nat) {used : List Point} (hnd : used.Nodup)
    (hlen : used.length < g * g) :
    ∃ p, inGrid g p ∧ p ∉ used := by
  by_contra hcon
  push_neg at hcon
  have hsub : (Finset.univ.image (gridPoint g) : Finset Point) ⊆ used.toFinset := by
    intro p hp
    simp only [Finset.mem_image] at hp
    obtain ⟨v, -, rfl⟩ := hp
    exact List.mem_toFinset.mpr (hcon _ (gridPoint_inGrid g v))
  have hcard := Finset.card_le_card hsub
  rw [Finset.card_image_of_injective _ (gridPoint_injective g)] at hcard
  rw [Finset.card_univ, Fintype.card_prod, Fintype.card_fin] at hcard
  rw [List.toFinset_card_of_nodup hnd] at hcard
  omega

theorem nodup_append_singleton {used : List Point} {p : Point}
    (hnd : used.Nodup) (hpu : p ∉ used) : (used ++ [p]).Nodup := by
  rw [List.nodup_append]
  refine ⟨hnd, List.nodup_singleton p, ?_⟩
  intro a ha hb
  rw [List.mem_singleton] at hb
  subst hb
  exact hpu ha

theorem grid_append_singleton {g : Nat} {used : List Point} {p : Point}
    (hgrid : ∀ q ∈ used, inGrid g q) (hp : inGrid g p) :
    ∀ q ∈ used ++ [p], inGrid g q := by
  intro q hq
  rcases List.mem_append.mp hq with hq | hq
  · exact hgrid q hq
  · rw [List.mem_singleton] at hq
    subst hq
    exact hp

theorem chooseUnoccupiedLocation_mono {g : Nat} {rnd : Nat → Fin g × Fin g}
    {fuel i : Nat} {used : List Point} {r : Point × List Point × Nat}
    (h : chooseUnoccupiedLocation g rnd fuel i used = some r) :
    ∀ fuel2, fuel ≤ fuel2 → chooseUnoccupiedLocation g rnd fuel2 i used = some r := by
  intro fuel2 hf
  simp only [chooseUnoccupiedLocation] at h ⊢
  cases hc : chooseLoop g rnd used i fuel with
  | none => rw [hc] at h; cases h
  | some pr =>
    obtain ⟨p, j⟩ := pr
    rw [hc] at h
    dsimp only at h
    rw [chooseLoop_mono hc fuel2 hf]
    dsimp only
    exact h

theorem initTreasures_mono {g : Nat} {rnd : Nat → Fin g × Fin g} {fuel : Nat} :
    ∀ {n i : Nat} {used : List Point} {r : List Point × List Point × Nat},
      initTreasures g rnd fuel n i used = some r →
      ∀ fuel2, fuel ≤ fuel2 → initTreasures g rnd fuel2 n i used = some r := by
  intro n
  induction n with
  | zero =>
    intro i used r h fuel2 hf
    simp only [initTreasures] at h ⊢
    exact h
  | succ n ih =>
    intro i used r h fuel2 hf
    simp only [initTreasures] at h ⊢
    cases hch : chooseUnoccupiedLocation g rnd fuel i used with
    | none => rw [hch] at h; cases h
    | some trip =>
      obtain ⟨p, u2, j⟩ := trip
      rw [hch] at h
      dsimp only at h
      rw [chooseUnoccupiedLocation_mono hch fuel2 hf]
      dsimp only
      cases hit : initTreasures g rnd fuel n j u2 with
      | none => rw [hit] at h; cases h
      | some trip2 =>
        rw [hit] at h
        rw [ih hit fuel2 hf]
        exact h

theorem initTreasures_spec {g : Nat} {rnd : Nat → Fin g × Fin g}
    (hfair : FairStream g rnd) :
    ∀ (n i : Nat) (used : List Point), used.Nodup → (∀ p ∈ used, inGrid g p) →
      used.length + n ≤ g * g →
      ∃ fuel locs used3 k,
        initTreasures g rnd fuel n i used = some (locs, used3, k) ∧
        used3 = used ++ locs ∧ used3.Nodup ∧ (∀ p ∈ used3, inGrid g p) ∧
        locs.length = n := by
  intro n
  induction n with
  | zero =>
    intro i used hnd hgrid hlen
    exact ⟨0, [], used, i, by simp [initTreasures], by simp, hnd, hgrid, rfl⟩
  | succ n ih =>
    intro i used hnd hgrid hlen
    have hfree : ∃ p, inGrid g p ∧ p ∉ used := exists_unused g hnd (by omega)
    obtain ⟨fuel1, p, used2, j, hch, hpg, hpu, hused2⟩ :=
      chooseUnoccupiedLocation_step hfair i hfree
    have hnd2 : used2.Nodup := hused2 ▸ nodup_append_singleton hnd hpu
    have hgrid2 : ∀ q ∈ used2, inGrid g q := hused2 ▸ grid_append_singleton hgrid hpg
    have hlen2 : used2.length + n ≤ g * g := by
      rw [hused2]
      simp only [List.length_append, List.length_singleton]
      omega
    obtain ⟨fuel2, locs, used3, k, hit, hu3, hnd3, hgrid3, hlocs⟩ :=
      ih j used2 hnd2 hgrid2 hlen2
    refine ⟨max fuel1 fuel2, p :: locs, used3, k, ?_, ?_, hnd3, hgrid3, by simp [hlocs]⟩
    · simp only [initTreasures]
      rw [chooseUnoccupiedLocation_mono hch (max fuel1 fuel2) (le_max_left _ _)]
      dsimp only
      rw [initTreasures_mono hit (max fuel1 fuel2) (le_max_right _ _)]
    · rw [hu3, hused2]
      simp

/-- C3: for every grid size and treasure-name list with
`names.length + 2 ≤ g * g`, `initGame` driven by a fair sampling stream
succeeds for some fuel, placing the player at `(1, 1)` with the player,
monster, and all treasure locations pairwise distinct and every placed
coordinate within `[1, g]` on both axes. -/
theorem initGame_spec (g : Nat) (rnd : Nat → Fin g × Fin g) (names : List String)
    (hfair : FairStream g rnd) (hcount : names.length + 2 ≤ g * g) :
    ∃ fuel st, initGame g rnd fuel names = some st ∧
      st.playerLocation = ⟨1, 1⟩ ∧
      ∃ locs, st.treasureLocations = locs.map some ∧
        (st.playerLocation :: st.monsterLocation :: locs).Nodup ∧
        inGrid g st.playerLocation ∧ inGrid g st.monsterLocation ∧
        ∀ p ∈ locs, inGrid g p := by
  have hg2 : 2 ≤ g := by
    by_contra hg
    push_neg at hg
    interval_cases g <;> omega
  have hgg : 4 ≤ g * g := by
    calc 4 = 2 * 2 := rfl
      _ ≤ g * g := Nat.mul_le_mul hg2 hg2
  have hplayer : inGrid g (⟨1, 1⟩ : Point) := by
    unfold inGrid
    dsimp only
    omega
  have hnd1 : ([⟨1, 1⟩] : List Point).Nodup := List.nodup_singleton _
  have hgrid1 : ∀ p ∈ ([⟨1, 1⟩] : List Point), inGrid g p := by
    intro p hp
    rw [List.mem_singleton] at hp
    subst hp
    exact hplayer
  have hfree1 : ∃ p, inGrid g p ∧ p ∉ ([⟨1, 1⟩] : List Point) :=
    exists_unused g hnd1 (by simp only [List.length_singleton]; omega)
  obtain ⟨fuel1, mon, used2, j, hch, hmg, hmu, hused2⟩ :=
    chooseUnoccupiedLocation_step hfair 0 hfree1
  have hnd2 : used2.Nodup := hused2 ▸ nodup_append_singleton hnd1 hmu
  have hgrid2 : ∀ q ∈ used2, inGrid g q := hused2 ▸ grid_append_singleton hgrid1 hmg
  have hlen2 : used2.length + names.length ≤ g * g := by
    rw [hused2]
    simp only [List.length_append, List.length_singleton]
    omega
  obtain ⟨fuel2, locs, used3, k, hit, hu3, hnd3, hgrid3, hlocs⟩ :=
    initTreasures_spec hfair names.length j used2 hnd2 hgrid2 hlen2
  have hu3e : used3 = ⟨1, 1⟩ :: mon :: locs := by
    rw [hu3, hused2]
    simp
  refine ⟨max fuel1 fuel2,
    { treasures := names
      treasureLocations := locs.map some
      foundTreasureCount := 0
      monsterLocation := mon
      playerLocation := ⟨1, 1⟩ }, ?_, rfl, locs, rfl, ?_, hplayer, hmg, ?_⟩
  · simp only [initGame]
    rw [chooseUnoccupiedLocation_mono hch (max fuel1 fuel2) (le_max_left _ _)]
    dsimp only
    rw [initTreasures_mono hit (max fuel1 fuel2) (le_max_right _ _)]
  · dsimp only
    rw [← hu3e]
    exact hnd3
  · intro p hp
    refine hgrid3 p ?_
    rw [hu3]
    exact List.mem_append.mpr (Or.inr hp)

theorem initGame_spec_witness :
    ∃ fuel st, initGame 2 cyc2 fuel [] = some st ∧
      st.playerLocation = ⟨1, 1⟩ ∧
      ∃ locs, st.treasureLocations = locs.map some ∧
        (st.playerLocation :: st.monsterLocation :: locs).Nodup ∧
        inGrid 2 st.playerLocation ∧ inGrid 2 st.monsterLocation ∧
        ∀ p ∈ locs, inGrid 2 p :=
  initGame_spec 2 cyc2 [] cyc2_fair (by decide)

end TreasureHunt
